import Mathlib

/-!
Shallow embedding of
`lms/djangoapps/program_enrollments/management/commands/send_program_course_nudge_email.py`:
the program-course nudge-email batch command.  Python dict records become
Lean structures; the external collaborators (grade store, catalog,
progress meter, enterprise lookup, settings) become fields of a `World`
record; fallible evaluation (uncaught Python exceptions) becomes
`Except String`.
-/

namespace NudgeEmail

/-- A course-run record as produced by the catalog / progress meter.
`image` models the `image` dict: `none` for a missing/falsy value,
`some src` for a truthy dict whose `src` entry is `src`.
Python truthiness of `marketing_url` is emptiness of the string. -/
structure CourseRun where
  key : String
  title : String
  short_description : String
  marketing_url : String
  is_enrollable : Bool
  is_marketable : Bool
  image : Option String
  status : String
  deriving DecidableEq

/-- A course record: its key and its course runs, in catalog order. -/
structure Course where
  key : String
  course_runs : List CourseRun
  deriving DecidableEq

/-- A detailed program record from the catalog.  `sort_revenue_order` is
the dict entry of that name: absent (`none`) until `sort_programs`
writes it. -/
structure Program where
  uuid : String
  type : String
  title : String
  courses : List Course
  sort_revenue_order : Option Nat
  deriving DecidableEq

/-- One entry of `ProgramProgressMeter.progress`: the per-user partition
of a program's courses into completed / in-progress / not-started. -/
structure ProgramProgress where
  uuid : String
  completed : List Course
  in_progress : List Course
  not_started : List Course
  deriving DecidableEq

/-- An enterprise customer record, as returned inside
`get_enterprise_learner_data_from_db` entries. -/
structure EnterpriseCustomer where
  slug : String
  enable_learner_portal : Bool
  deriving DecidableEq

/-- One element of the list returned by
`get_enterprise_learner_data_from_db`. -/
structure EnterpriseLearnerData where
  enterprise_customer : Option EnterpriseCustomer
  deriving DecidableEq

/-- A user record (the fields the command reads). -/
structure User where
  id : Nat
  username : String
  deriving DecidableEq

/-- Modelled from the spec: the constant `COURSE_PUBLISHED` imported
from `openedx.core.constants` (that module is not under `src/`); the
spec's eligibility invariant says a run must be in "published" status. -/
def COURSE_PUBLISHED : String := "published"

/-- Source `Command.valid_course_run`: the five-way eligibility conjunction
(Python `and` over truthiness). -/
def valid_course_run (course_run : CourseRun) : Bool :=
  course_run.is_enrollable
    && course_run.is_marketable
    && course_run.marketing_url != ""
    && course_run.image.isSome
    && course_run.status == COURSE_PUBLISHED

/-- Result of `Command.get_course_run_to_suggest`.  The Python function
returns the 3-tuple `(program, course_run, not_started_course)` on a
match and the 2-tuple `(None, None)` when the loops are exhausted. -/
inductive SuggestResult where
  | found : ProgramProgress → CourseRun → Course → SuggestResult
  | notFound : SuggestResult
  deriving DecidableEq

/-- The eligibility test applied to a run during the suggestion scan,
the source's inline condition
`valid_course_run(course_run) and course_run[key] != completed_course_id`. -/
def eligible (completed_course_id : String) (cr : CourseRun) : Bool :=
  valid_course_run cr && cr.key != completed_course_id

/-- The two inner loops of `get_course_run_to_suggest`: scan the
not-started courses of one program, and inside each its course runs,
returning the first run that is valid and differs from the completed
course id, together with its parent course. -/
def suggest_in_courses (completed_course_id : String) :
    List Course → Option (CourseRun × Course)
  | [] => none
  | c :: cs =>
    match c.course_runs.find? (eligible completed_course_id) with
    | some cr => some (cr, c)
    | none => suggest_in_courses completed_course_id cs

/-- Source `Command.get_course_run_to_suggest`: the triple loop over ranked
programs, their not-started courses and those courses' runs. -/
def get_course_run_to_suggest :
    List ProgramProgress → String → SuggestResult
  | [], _ => .notFound
  | p :: ps, completed_course_id =>
    match suggest_in_courses completed_course_id p.not_started with
    | some (cr, c) => .found p cr c
    | none => get_course_run_to_suggest ps completed_course_id

/-- The caller's 3-name tuple unpacking
`suggested_program_progress, suggested_course_run, suggested_course = ...`.
Unpacking the 2-tuple `(None, None)` raises `ValueError` in Python. -/
def unpack3 : SuggestResult → Except String (ProgramProgress × CourseRun × Course)
  | .found p cr c => .ok (p, cr, c)
  | .notFound => .error "ValueError: not enough values to unpack (expected 3, got 2)"

/-- Specification-side view of the scan order: all eligible
(program, run, course) triples, in program order, then course order
within the not-started partition, then run order within the course. -/
def suggest_candidates (programs_progress : List ProgramProgress)
    (completed_course_id : String) :
    List (ProgramProgress × CourseRun × Course) :=
  programs_progress.flatMap (fun p =>
    p.not_started.flatMap (fun c =>
      (c.course_runs.filter (eligible completed_course_id)).map
        (fun cr => (p, cr, c))))

/-- The run/course payload of a suggestion, forgetting the program. -/
def suggestedRunCourse : SuggestResult → Option (CourseRun × Course)
  | .found _ cr c => some (cr, c)
  | .notFound => none

/-- State-passing rendering of the `get_course_run_to_suggest` loop: the
traversal threads the list of progress records through and hands it
back together with the result, making any mutation of the input
visible. -/
def suggestLoop : List ProgramProgress → String →
    List ProgramProgress × SuggestResult
  | [], _ => ([], .notFound)
  | p :: ps, completed_course_id =>
    match suggest_in_courses completed_course_id p.not_started with
    | some (cr, c) => (p :: ps, .found p cr c)
    | none =>
      let r := suggestLoop ps completed_course_id
      (p :: r.1, r.2)

/-- The fixed revenue-priority table of `Command.sort_programs`
(`sort_revenue_order.get(program[type], 7)`). -/
def sort_revenue_order_table (t : String) : Nat :=
  if t = "MicroMasters" then 1
  else if t = "Professional Program" then 2
  else if t = "Professional Certificate" then 3
  else if t = "XSeries" then 4
  else if t = "Masters" then 5
  else if t = "MicroBachelors" then 6
  else 7

/-- The in-place dict write
`program[sort_revenue_order] = sort_revenue_order.get(program[type], 7)`
performed on each record of the input list. -/
def set_sort_revenue_order (p : Program) : Program :=
  { p with sort_revenue_order := some (sort_revenue_order_table p.type) }

/-- The mutation pass of `sort_programs` over the whole input list. -/
def annotate_programs (programs : List Program) : List Program :=
  programs.map set_sort_revenue_order

/-- Source `itemgetter(sort_revenue_order)` on an annotated record (the field is
always present after `annotate_programs`; the default is never used). -/
def program_sort_key (p : Program) : Nat :=
  p.sort_revenue_order.getD 0

/-- Source `Command.sort_programs`: annotate every record, then Python's
`sorted` (a stable sort) keyed on the written field. -/
def sort_programs (programs : List Program) : List Program :=
  (annotate_programs programs).mergeSort
    (fun a b => program_sort_key a ≤ program_sort_key b)

/-- State-passing rendering of `sort_programs`: the first component is
the state of the caller's record list after the call (each record now
carrying the annotation), the second the returned sorted list. -/
def sort_programs_state (programs : List Program) :
    List Program × List Program :=
  (annotate_programs programs, sort_programs programs)

/-- The inner loop of `Command.get_course_run`: first run of a course
list whose key matches. -/
def find_run_in_course (course_run_id : String) (runs : List CourseRun) :
    Option CourseRun :=
  runs.find? (fun cr => cr.key == course_run_id)

/-- The outer loop of `Command.get_course_run` over a program's courses;
falling off the end of a Python function returns `None`. -/
def get_course_run_loop (course_run_id : String) :
    List Course → Option CourseRun
  | [] => none
  | c :: cs =>
    match find_run_in_course course_run_id c.course_runs with
    | some cr => some cr
    | none => get_course_run_loop course_run_id cs

/-- Source `Command.get_course_run`. -/
def get_course_run (program : Program) (course_run_id : String) :
    Option CourseRun :=
  get_course_run_loop course_run_id program.courses

/-- Source `Command.get_program`: first detailed program whose uuid matches the
progress record's uuid, `None` when absent. -/
def get_program (programs : List Program)
    (program_progress : ProgramProgress) : Option Program :=
  programs.find? (fun p => p.uuid == program_progress.uuid)

/-- Cut a character list at the first occurrence of `://`. -/
def breakScheme : List Char → Option (List Char × List Char)
  | [] => none
  | ':' :: '/' :: '/' :: rest => some ([], rest)
  | c :: rest =>
    match breakScheme rest with
    | some (pre, post) => some (c :: pre, post)
    | none => none

/-- Split `scheme://rest` at the first `://`, as a model of the scheme
parsing inside `urllib.parse`. -/
def schemeSplit (url : String) : Option (String × String) :=
  match breakScheme url.data with
  | some (pre, post) => some (String.mk pre, String.mk post)
  | none => none

/-- Does the reference begin with `/` (an absolute-path reference)? -/
def headIsSlash (rel : String) : Bool :=
  match rel.data with
  | '/' :: _ => true
  | _ => false

/-- Does the reference begin with `//` (a network-path reference)? -/
def headIsDoubleSlash (rel : String) : Bool :=
  match rel.data with
  | '/' :: '/' :: _ => true
  | _ => false

/-- Split the part after the scheme into network location (up to the
first `/`) and path (the rest). -/
def netlocSplit (rest : String) : String × String :=
  (String.mk (rest.data.takeWhile (fun c => c ≠ '/')),
   String.mk (rest.data.dropWhile (fun c => c ≠ '/')))

/-- The directory part of a path: everything up to and including the
last `/`, and `/` for a path without one (the join point for a
relative reference against an absolute base). -/
def dirname (path : String) : String :=
  let kept := (path.data.reverse.dropWhile (fun c => c ≠ '/')).reverse
  if kept.isEmpty then "/" else String.mk kept

/-- Modelled from the spec: `urllib.parse.urljoin` (Python standard
library, not under `src/`), restricted to the shapes the command
builds: an absolute `scheme://netloc/path` base joined with either an
absolute URL or a relative path reference (no `.`/`..` segments). -/
def py_urljoin (base rel : String) : String :=
  if rel = "" then base
  else
    match schemeSplit rel with
    | some _ => rel
    | none =>
      match schemeSplit base with
      | none => rel
      | some sr =>
        let netloc := (netlocSplit sr.2).1
        let path := (netlocSplit sr.2).2
        if headIsDoubleSlash rel then sr.1 ++ ":" ++ rel
        else if headIsSlash rel then sr.1 ++ "://" ++ netloc ++ rel
        else sr.1 ++ "://" ++ netloc ++ dirname path ++ rel

/-- The event handed to `segment.track`: the user id, the event name and
the `event_properties` dict built by `emit_event`. -/
structure Event where
  user_id : Nat
  event_name : String
  course_one_name : String
  program_type : String
  program_title : String
  course_two_name : String
  course_two_short_description : String
  course_two_link : String
  course_two_image_link : Option String
  deriving DecidableEq

/-- The inputs the command reads from its collaborators: the passed
course → users map (in dict insertion order), the catalog, the progress
meter, the enterprise lookup and the two settings URLs. -/
structure World where
  course_to_users : List (String × List User)
  programs_by_course : String → List Program
  progress : User → List Program → List ProgramProgress
  learner_data : User → List EnterpriseLearnerData
  enterprise_learner_portal_base_url : String
  mktg_root : String

/-- Source `learner_data[0][enterprise_customer] if learner_data else None`. -/
def first_enterprise_customer (learner_data : List EnterpriseLearnerData) :
    Option EnterpriseCustomer :=
  match learner_data with
  | [] => none
  | d :: _ => d.enterprise_customer

/-- The recommended-course URL computed inside `Command.emit_event`:
the enterprise learner-portal override when the first learner-data
record carries a customer with the portal flag on, the marketing-site
join otherwise. -/
def recommended_course_url (w : World) (user : User)
    (suggested_course_run : CourseRun) (suggested_course : Course) : String :=
  match first_enterprise_customer (w.learner_data user) with
  | some ec =>
    if ec.enable_learner_portal then
      py_urljoin w.enterprise_learner_portal_base_url
        (String.intercalate "/" [ec.slug, "course", suggested_course.key])
    else py_urljoin w.mktg_root suggested_course_run.marketing_url
  | none => py_urljoin w.mktg_root suggested_course_run.marketing_url

/-- Source `Command.emit_event`.  Subscripting `completed_course_run[title]`
when `get_course_run` returned `None` raises `TypeError`; calling
`.get` on a `None` image raises `AttributeError`; otherwise the built
event reaches `segment.track` and is returned. -/
def emit_event (w : World) (user : User) (program : Program)
    (suggested_course_run : CourseRun) (suggested_course : Course)
    (completed_course_run : Option CourseRun) : Except String Event :=
  let url := recommended_course_url w user suggested_course_run suggested_course
  match completed_course_run with
  | none => .error "TypeError: NoneType object is not subscriptable"
  | some completed =>
    match suggested_course_run.image with
    | none => .error "AttributeError: NoneType object has no attribute get"
    | some img =>
      .ok { user_id := user.id
            event_name := "edx.bi.program.course-enrollment.nudge"
            course_one_name := completed.title
            program_type := program.type
            program_title := program.title
            course_two_name := suggested_course_run.title
            course_two_short_description := suggested_course_run.short_description
            course_two_link := url
            course_two_image_link := some img }

/-- The audit record appended to `email_sent_records` for one match. -/
def sent_record (user : User) (completed_course_id : String)
    (suggested_course_run : CourseRun) : String :=
  "User: " ++ user.username ++ ", Completed Course: " ++ completed_course_id
    ++ ", Suggested Course: " ++ suggested_course_run.key

/-- Outcome of a (partial) run of `handle`: the events that reached the
sink, the audit records accumulated, and whether execution completed
without an uncaught exception. -/
structure RunResult where
  events : List Event
  records : List String
  ok : Bool
  deriving DecidableEq

/-- The per-user body of the `handle` loop: compute the progress
partition, unpack the suggestion 3-ways, look up the detailed program
and the completed run, emit (when committing) and append the audit
record.  An uncaught exception stops the run with the state reached so
far. -/
def process_user (w : World) (commit : Bool) (programs : List Program)
    (completed_course_id : String) (user : User)
    (evs : List Event) (recs : List String) : RunResult :=
  let programs_progress := w.progress user programs
  match unpack3 (get_course_run_to_suggest programs_progress completed_course_id) with
  | .error _ => ⟨evs, recs, false⟩
  | .ok (sp, scr, sc) =>
    match get_program programs sp with
    | none => ⟨evs, recs, false⟩
    | some suggested_program =>
      let ccr := get_course_run suggested_program completed_course_id
      if commit then
        match emit_event w user suggested_program scr sc ccr with
        | .error _ => ⟨evs, recs, false⟩
        | .ok ev =>
          ⟨evs ++ [ev], recs ++ [sent_record user completed_course_id scr], true⟩
      else ⟨evs, recs ++ [sent_record user completed_course_id scr], true⟩

/-- The inner `for user in users` loop of `handle`. -/
def process_users (w : World) (commit : Bool) (programs : List Program)
    (completed_course_id : String) :
    List User → List Event → List String → RunResult
  | [], evs, recs => ⟨evs, recs, true⟩
  | u :: us, evs, recs =>
    let r := process_user w commit programs completed_course_id u evs recs
    if r.ok then process_users w commit programs completed_course_id us r.events r.records
    else r

/-- The outer `for completed_course_id, users in ...` loop of `handle`:
fetch and rank the programs linked to the course, skip the users when
the list is empty. -/
def process_courses (w : World) (commit : Bool) :
    List (String × List User) → List Event → List String → RunResult
  | [], evs, recs => ⟨evs, recs, true⟩
  | (cid, users) :: rest, evs, recs =>
    let programs := sort_programs (w.programs_by_course cid)
    if programs.isEmpty then process_courses w commit rest evs recs
    else
      let r := process_users w commit programs cid users evs recs
      if r.ok then process_courses w commit rest r.events r.records
      else r

/-- Source `Command.handle`: `should_commit = not no_commit`, then the batch
loops. -/
def handle (w : World) (no_commit : Bool) : RunResult :=
  process_courses w (!no_commit) w.course_to_users [] []

lemma suggest_in_courses_eq_some {cid : String} {cs : List Course}
    {cr : CourseRun} {c : Course}
    (h : suggest_in_courses cid cs = some (cr, c)) :
    eligible cid cr = true ∧ c ∈ cs ∧ cr ∈ c.course_runs := by
  induction cs with
  | nil => simp [suggest_in_courses] at h
  | cons hd tl ih =>
    rw [suggest_in_courses] at h
    cases hfind : hd.course_runs.find? (eligible cid) with
    | some cr0 =>
      rw [hfind] at h
      obtain ⟨rfl, rfl⟩ : cr0 = cr ∧ hd = c := by
        simpa [Prod.ext_iff] using h
      exact ⟨List.find?_some hfind, List.mem_cons_self _ _,
        List.mem_of_find?_eq_some hfind⟩
    | none =>
      rw [hfind] at h
      obtain ⟨he, hc, hr⟩ := ih h
      exact ⟨he, List.mem_cons_of_mem _ hc, hr⟩

lemma suggest_in_courses_eq_head? (cid : String) (cs : List Course) :
    suggest_in_courses cid cs =
      (cs.flatMap (fun c =>
        (c.course_runs.filter (eligible cid)).map (fun cr => (cr, c)))).head? := by
  induction cs with
  | nil => rfl
  | cons hd tl ih =>
    rw [suggest_in_courses, List.flatMap_cons, List.head?_append,
      List.head?_map, List.filter_head?]
    cases hfind : hd.course_runs.find? (eligible cid) with
    | some cr0 => rfl
    | none => simpa using ih

lemma head?_triples (p : ProgramProgress) (cid : String) (cs : List Course) :
    (cs.flatMap (fun c =>
        (c.course_runs.filter (eligible cid)).map (fun cr => (p, cr, c)))).head?
      = ((cs.flatMap (fun c =>
          (c.course_runs.filter (eligible cid)).map (fun cr => (cr, c)))).head?).map
            (fun t => (p, t.1, t.2)) := by
  induction cs with
  | nil => rfl
  | cons hd tl ih =>
    rw [List.flatMap_cons, List.flatMap_cons, List.head?_append,
      List.head?_append, List.head?_map, List.head?_map]
    cases hh : (hd.course_runs.filter (eligible cid)).head? with
    | some cr0 => rfl
    | none => simpa using ih

/-- C2: whenever `get_course_run_to_suggest` returns a course-run, that
run is enrollable, marketable, has a non-empty marketing URL, has an
image, is in published status, and its key differs from the completed
course id. -/
theorem suggested_run_eligible (ps : List ProgramProgress) (cid : String)
    (p : ProgramProgress) (cr : CourseRun) (c : Course)
    (h : get_course_run_to_suggest ps cid = .found p cr c) :
    cr.is_enrollable = true ∧ cr.is_marketable = true ∧
      cr.marketing_url ≠ "" ∧ cr.image.isSome = true ∧
      cr.status = COURSE_PUBLISHED ∧ cr.key ≠ cid := by
  induction ps with
  | nil => simp [get_course_run_to_suggest] at h
  | cons hd tl ih =>
    rw [get_course_run_to_suggest] at h
    cases hs : suggest_in_courses cid hd.not_started with
    | some pr =>
      rw [hs] at h
      obtain ⟨cr0, c0⟩ := pr
      obtain ⟨rfl, rfl, rfl⟩ : hd = p ∧ cr0 = cr ∧ c0 = c := by
        cases h; exact ⟨rfl, rfl, rfl⟩
      have he := (suggest_in_courses_eq_some hs).1
      simpa [eligible, valid_course_run, Bool.and_eq_true, bne_iff_ne,
        beq_iff_eq, and_assoc] using he
    | none => rw [hs] at h; exact ih h

/-- Closed instance of `suggested_run_eligible` at a concrete input. -/
theorem suggested_run_eligible_witness :
    (⟨"CS202", "t2", "d2", "mkt", true, true, some "img", "published"⟩ :
        CourseRun).is_enrollable = true ∧
      (⟨"CS202", "t2", "d2", "mkt", true, true, some "img", "published"⟩ :
        CourseRun).key ≠ "CS101" :=
  have h := suggested_run_eligible
    [⟨"p1", [], [],
      [⟨"C2", [⟨"CS202", "t2", "d2", "mkt", true, true, some "img",
        "published"⟩]⟩]⟩]
    "CS101"
    ⟨"p1", [], [],
      [⟨"C2", [⟨"CS202", "t2", "d2", "mkt", true, true, some "img",
        "published"⟩]⟩]⟩
    ⟨"CS202", "t2", "d2", "mkt", true, true, some "img", "published"⟩
    ⟨"C2", [⟨"CS202", "t2", "d2", "mkt", true, true, some "img",
      "published"⟩]⟩
    (by decide)
  ⟨h.1, h.2.2.2.2.2⟩

/-- C3: the suggestion is the head of the candidate list enumerated in
program order, then course order inside the not-started partition, then
run order — first eligible match wins. -/
theorem suggestion_first_in_scan_order (ps : List ProgramProgress)
    (cid : String) :
    get_course_run_to_suggest ps cid =
      match (suggest_candidates ps cid).head? with
      | some t => SuggestResult.found t.1 t.2.1 t.2.2
      | none => SuggestResult.notFound := by
  induction ps with
  | nil => rfl
  | cons hd tl ih =>
    rw [get_course_run_to_suggest, suggest_in_courses_eq_head? cid hd.not_started]
    rw [show suggest_candidates (hd :: tl) cid =
        (hd.not_started.flatMap (fun c =>
          (c.course_runs.filter (eligible cid)).map (fun cr => (hd, cr, c))))
          ++ suggest_candidates tl cid from by
      simp [suggest_candidates]]
    rw [List.head?_append, head?_triples]
    cases hh : (hd.not_started.flatMap (fun c =>
        (c.course_runs.filter (eligible cid)).map (fun cr => (cr, c)))).head? with
    | some pr => simp
    | none => simpa using ih

/-- C7: a suggested course always comes from the not-started partition
of its program, and the suggestion's run/course payload is invariant
under arbitrary changes to the in-progress and completed partitions. -/
theorem suggestion_only_from_not_started (ps : List ProgramProgress)
    (cid : String) :
    (∀ p cr c, get_course_run_to_suggest ps cid = .found p cr c →
      p ∈ ps ∧ c ∈ p.not_started ∧ cr ∈ c.course_runs) ∧
    ∀ (f g : ProgramProgress → List Course),
      suggestedRunCourse (get_course_run_to_suggest
        (ps.map (fun p => { p with in_progress := f p, completed := g p })) cid)
        = suggestedRunCourse (get_course_run_to_suggest ps cid) := by
  constructor
  · induction ps with
    | nil => intro p cr c h; simp [get_course_run_to_suggest] at h
    | cons hd tl ih =>
      intro p cr c h
      rw [get_course_run_to_suggest] at h
      cases hs : suggest_in_courses cid hd.not_started with
      | some pr =>
        rw [hs] at h
        obtain ⟨cr0, c0⟩ := pr
        obtain ⟨rfl, rfl, rfl⟩ : hd = p ∧ cr0 = cr ∧ c0 = c := by
          cases h; exact ⟨rfl, rfl, rfl⟩
        obtain ⟨-, hc, hr⟩ := suggest_in_courses_eq_some hs
        exact ⟨List.mem_cons_self _ _, hc, hr⟩
      | none =>
        rw [hs] at h
        obtain ⟨hp, hc, hr⟩ := ih p cr c h
        exact ⟨List.mem_cons_of_mem _ hp, hc, hr⟩
  · intro f g
    induction ps with
    | nil => rfl
    | cons hd tl ih =>
      cases hs : suggest_in_courses cid hd.not_started with
      | some pr =>
        obtain ⟨cr, c⟩ := pr
        simp [get_course_run_to_suggest, hs, suggestedRunCourse]
      | none =>
        simp only [List.map_cons, get_course_run_to_suggest, hs]
        exact ih

/-- Closed instance of `suggestion_only_from_not_started`. -/
theorem suggestion_only_from_not_started_witness :
    (⟨"p1", [], [], [⟨"C2", [⟨"CS202", "t2", "d2", "mkt", true, true,
        some "img", "published"⟩]⟩]⟩ : ProgramProgress) ∈
      [(⟨"p1", [], [], [⟨"C2", [⟨"CS202", "t2", "d2", "mkt", true, true,
        some "img", "published"⟩]⟩]⟩ : ProgramProgress)] :=
  ((suggestion_only_from_not_started
    [⟨"p1", [], [], [⟨"C2", [⟨"CS202", "t2", "d2", "mkt", true, true,
      some "img", "published"⟩]⟩]⟩] "CS101").1
    ⟨"p1", [], [], [⟨"C2", [⟨"CS202", "t2", "d2", "mkt", true, true,
      some "img", "published"⟩]⟩]⟩
    ⟨"CS202", "t2", "d2", "mkt", true, true, some "img", "published"⟩
    ⟨"C2", [⟨"CS202", "t2", "d2", "mkt", true, true, some "img",
      "published"⟩]⟩
    (by decide)).1

lemma suggestLoop_eq (ps : List ProgramProgress) (cid : String) :
    suggestLoop ps cid = (ps, get_course_run_to_suggest ps cid) := by
  induction ps with
  | nil => rfl
  | cons hd tl ih =>
    rw [suggestLoop, get_course_run_to_suggest]
    cases hs : suggest_in_courses cid hd.not_started with
    | some pr => obtain ⟨cr, c⟩ := pr; rfl
    | none => simp [ih]

/-- C8: the suggestion scan hands back its input unmodified, its result
is the pure function of the inputs, and equal inputs give equal
results. -/
theorem suggest_pure (ps : List ProgramProgress) (cid : String) :
    (suggestLoop ps cid).1 = ps ∧
    (suggestLoop ps cid).2 = get_course_run_to_suggest ps cid ∧
    ∀ ps2 cid2, ps2 = ps → cid2 = cid →
      get_course_run_to_suggest ps2 cid2 = get_course_run_to_suggest ps cid := by
  refine ⟨by rw [suggestLoop_eq], by rw [suggestLoop_eq], ?_⟩
  intro ps2 cid2 h1 h2
  rw [h1, h2]

/-- Closed instance of `suggest_pure`. -/
theorem suggest_pure_witness :
    get_course_run_to_suggest [] "CS101" =
      get_course_run_to_suggest [] "CS101" :=
  (suggest_pure [] "CS101").2.2 [] "CS101" rfl rfl

/-- A test user shared by the concrete evaluations below. -/
def test_user : User := ⟨1, "alice"⟩

/-- A course run that fails eligibility: not marketable. -/
def unmarketable_run : CourseRun :=
  ⟨"CS202", "t2", "d2", "mkt", true, false, some "img", "published"⟩

/-- A fully eligible course run. -/
def eligible_run : CourseRun :=
  ⟨"CS202", "t2", "d2", "mkt", true, true, some "img", "published"⟩

/-- A one-course progress record whose only run is `unmarketable_run`. -/
def c1_pp : ProgramProgress :=
  ⟨"p1", [], [], [⟨"C2", [unmarketable_run]⟩]⟩

/-- The catalog program matching `c1_pp`. -/
def c1_program : Program :=
  ⟨"p1", "XSeries", "XP", [⟨"C2", [unmarketable_run]⟩], none⟩

/-- A world in which the single user's progress offers no eligible run. -/
def c1_world : World :=
  ⟨[("CS101", [test_user])], fun _ => [c1_program], fun _ _ => [c1_pp],
   fun _ => [], "https://portal.example.com", "https://www.example.com/"⟩

lemma sort_programs_singleton (p : Program) :
    sort_programs [p] = [set_sort_revenue_order p] := by
  rw [sort_programs]
  rw [show annotate_programs [p] = [set_sort_revenue_order p] from rfl]
  exact List.mergeSort_singleton _

/-- C1 (code bug): with no eligible run the function returns the
2-tuple `(None, None)`, the caller's 3-name unpacking raises
`ValueError`, and the batch run aborts instead of proceeding. -/
theorem not_found_unpacking_value_error :
    get_course_run_to_suggest [c1_pp] "CS101" = SuggestResult.notFound ∧
    unpack3 (get_course_run_to_suggest [c1_pp] "CS101") =
      Except.error "ValueError: not enough values to unpack (expected 3, got 2)" ∧
    handle c1_world false = ⟨[], [], false⟩ := by
  refine ⟨by decide, rfl, ?_⟩
  rw [handle, show c1_world.course_to_users = [("CS101", [test_user])] from rfl,
    process_courses,
    show c1_world.programs_by_course "CS101" = [c1_program] from rfl,
    sort_programs_singleton]
  decide

lemma get_course_run_loop_eq (course_run_id : String) (cs : List Course) :
    get_course_run_loop course_run_id cs =
      (cs.flatMap Course.course_runs).find? (fun cr => cr.key == course_run_id) := by
  induction cs with
  | nil => rfl
  | cons hd tl ih =>
    rw [get_course_run_loop, List.flatMap_cons, List.find?_append]
    cases hfind : find_run_in_course course_run_id hd.course_runs with
    | some cr =>
      rw [find_run_in_course] at hfind
      rw [hfind]
      rfl
    | none =>
      rw [find_run_in_course] at hfind
      rw [hfind]
      simpa using ih

/-- C10: `get_course_run` returns the first run (course order, then run
order) whose key matches, `None` exactly when no run matches, and
`handle` passes that `None` to `emit_event` unchecked, where the
subscript raises and the run aborts. -/
theorem get_course_run_first_match (program : Program) (course_run_id : String)
    (w : World) (programs : List Program) (cid : String) (user : User)
    (evs : List Event) (recs : List String)
    (sp : ProgramProgress) (scr : CourseRun) (sc : Course) (sprog : Program) :
    (get_course_run program course_run_id =
      (program.courses.flatMap Course.course_runs).find?
        (fun cr => cr.key == course_run_id)) ∧
    (get_course_run program course_run_id = none ↔
      ∀ cr ∈ program.courses.flatMap Course.course_runs,
        ¬ cr.key = course_run_id) ∧
    (get_course_run_to_suggest (w.progress user programs) cid = .found sp scr sc →
      get_program programs sp = some sprog →
      get_course_run sprog cid = none →
      process_user w true programs cid user evs recs = ⟨evs, recs, false⟩) := by
  refine ⟨get_course_run_loop_eq course_run_id program.courses, ?_, ?_⟩
  · rw [get_course_run, get_course_run_loop_eq, List.find?_eq_none]
    simp only [List.mem_flatMap, beq_iff_eq, forall_exists_index, and_imp]
  · intro h1 h2 h3
    rw [process_user, h1]
    simp only [unpack3, h2, h3, emit_event]
    rfl

/-- A progress record offering `eligible_run`, for the `c10` world. -/
def c10_pp : ProgramProgress :=
  ⟨"p1", [], [], [⟨"C2", [eligible_run]⟩]⟩

/-- A catalog program that contains no run keyed `CS101`, so
`get_course_run` comes back `None` for the completed course. -/
def c10_program : Program :=
  ⟨"p1", "XSeries", "XP", [⟨"C2", [eligible_run]⟩], none⟩

/-- A world where the suggestion succeeds but the completed course's
run is absent from the suggested program. -/
def c10_world : World :=
  ⟨[("CS101", [test_user])], fun _ => [c10_program], fun _ _ => [c10_pp],
   fun _ => [], "https://portal.example.com", "https://www.example.com/"⟩

/-- Closed instance of `get_course_run_first_match`: the absent
completed run reaches `emit_event` and the per-user step aborts. -/
theorem get_course_run_first_match_witness :
    process_user c10_world true [c10_program] "CS101" test_user [] [] =
      ⟨[], [], false⟩ :=
  (get_course_run_first_match c10_program "CS101" c10_world [c10_program]
    "CS101" test_user [] [] c10_pp eligible_run ⟨"C2", [eligible_run]⟩
    c10_program).2.2 (by decide) (by decide) (by decide)

/-- C9: `sort_programs` writes `sort_revenue_order` on every record of
its input list (overwriting any prior value), leaving all other fields
alone, and returns the sorted list; the caller's records carry the
annotation after the call. -/
theorem sort_programs_annotates_input (ps : List Program) :
    List.Forall₂ (fun orig mutated =>
      mutated.uuid = orig.uuid ∧ mutated.type = orig.type ∧
      mutated.title = orig.title ∧ mutated.courses = orig.courses ∧
      mutated.sort_revenue_order = some (sort_revenue_order_table orig.type))
      ps (sort_programs_state ps).1 ∧
    (sort_programs_state ps).2 = sort_programs ps := by
  constructor
  · rw [show (sort_programs_state ps).1 = ps.map set_sort_revenue_order from rfl]
    rw [List.forall₂_map_right_iff]
    rw [List.forall₂_same]
    intro a _
    exact ⟨rfl, rfl, rfl, rfl, rfl⟩
  · rfl

lemma annotated_key (ps : List Program) :
    ∀ a ∈ annotate_programs ps,
      program_sort_key a = sort_revenue_order_table a.type := by
  intro a ha
  rw [annotate_programs] at ha
  obtain ⟨b, -, rfl⟩ := List.mem_map.mp ha
  rfl

lemma sort_key_trans : ∀ (a b c : Program),
    (fun a b : Program => decide (program_sort_key a ≤ program_sort_key b)) a b →
    (fun a b : Program => decide (program_sort_key a ≤ program_sort_key b)) b c →
    (fun a b : Program => decide (program_sort_key a ≤ program_sort_key b)) a c := by
  intro a b c hab hbc
  simp only [decide_eq_true_eq] at hab hbc ⊢
  omega

lemma sort_key_total : ∀ (a b : Program),
    ((fun a b : Program => decide (program_sort_key a ≤ program_sort_key b)) a b
      || (fun a b : Program => decide (program_sort_key a ≤ program_sort_key b)) b a) := by
  intro a b
  simp only [Bool.or_eq_true, decide_eq_true_eq]
  omega

/-- C4: `sort_programs` output is ordered by the fixed type-to-rank
table, is a permutation of the annotated input, keeps equal-rank
records in input order (stable sort), the six known types rank 1–6 and
every other type ranks 7, the maximum. -/
theorem sort_programs_ranking (ps : List Program) :
    (sort_programs ps).Pairwise (fun a b =>
      sort_revenue_order_table a.type ≤ sort_revenue_order_table b.type) ∧
    (∀ r : Nat, (sort_programs ps).filter (fun q => program_sort_key q == r)
        = (annotate_programs ps).filter (fun q => program_sort_key q == r)) ∧
    (sort_programs ps).Perm (annotate_programs ps) ∧
    sort_revenue_order_table "MicroMasters" = 1 ∧
    sort_revenue_order_table "Professional Program" = 2 ∧
    sort_revenue_order_table "Professional Certificate" = 3 ∧
    sort_revenue_order_table "XSeries" = 4 ∧
    sort_revenue_order_table "Masters" = 5 ∧
    sort_revenue_order_table "MicroBachelors" = 6 ∧
    (∀ t : String, t ∉ ["MicroMasters", "Professional Program",
        "Professional Certificate", "XSeries", "Masters", "MicroBachelors"] →
      sort_revenue_order_table t = 7) ∧
    (∀ t : String, sort_revenue_order_table t ≤ 7) := by
  refine ⟨?_, ?_, ?_, rfl, rfl, rfl, rfl, rfl, rfl, ?_, ?_⟩
  · have h := List.sorted_mergeSort sort_key_trans sort_key_total
      (annotate_programs ps)
    rw [show sort_programs ps = (annotate_programs ps).mergeSort
      (fun a b : Program => decide (program_sort_key a ≤ program_sort_key b))
      from rfl]
    refine h.imp_of_mem ?_
    intro a b ha hb hab
    rw [List.mem_mergeSort] at ha hb
    rw [← annotated_key ps a ha, ← annotated_key ps b hb]
    simpa using hab
  · intro r
    have hmem : ∀ a ∈ (annotate_programs ps).filter
        (fun q => program_sort_key q == r),
        (fun q => program_sort_key q == r) a = true :=
      fun a ha => (List.mem_filter.mp ha).2
    have hpair : ((annotate_programs ps).filter
        (fun q => program_sort_key q == r)).Pairwise
        (fun a b : Program => decide (program_sort_key a ≤ program_sort_key b)) := by
      refine List.pairwise_of_forall_mem_list ?_
      intro a ha b hb
      have h1 := (List.mem_filter.mp ha).2
      have h2 := (List.mem_filter.mp hb).2
      simp only [beq_iff_eq] at h1 h2
      simp [h1, h2]
    have h1 := List.sublist_mergeSort sort_key_trans sort_key_total hpair
      (List.filter_sublist (annotate_programs ps))
    have h2 := h1.filter (fun q => program_sort_key q == r)
    rw [List.filter_eq_self.mpr hmem] at h2
    have hperm := (List.mergeSort_perm (annotate_programs ps)
      (fun a b : Program => decide (program_sort_key a ≤ program_sort_key b))).filter
      (fun q => program_sort_key q == r)
    exact (h2.eq_of_length hperm.length_eq.symm).symm
  · exact List.mergeSort_perm _ _
  · intro t ht
    simp only [List.mem_cons, List.not_mem_nil, or_false, not_or] at ht
    obtain ⟨h1, h2, h3, h4, h5, h6⟩ := ht
    simp [sort_revenue_order_table, h1, h2, h3, h4, h5, h6]
  · intro t
    rw [sort_revenue_order_table]
    split_ifs <;> omega

/-- Closed instance of `sort_programs_ranking`: an unknown program type
is ranked 7. -/
theorem sort_programs_ranking_witness :
    sort_revenue_order_table "Journeys" = 7 :=
  (sort_programs_ranking []).2.2.2.2.2.2.2.2.2.1 "Journeys" (by decide)

lemma process_user_no_commit_events (w : World) (programs : List Program)
    (cid : String) (u : User) (evs : List Event) (recs : List String) :
    (process_user w false programs cid u evs recs).events = evs := by
  cases h1 : unpack3 (get_course_run_to_suggest (w.progress u programs) cid) with
  | error e => simp [process_user, h1]
  | ok t =>
    obtain ⟨sp, scr, sc⟩ := t
    cases h2 : get_program programs sp with
    | none => simp [process_user, h1, h2]
    | some sprog => simp [process_user, h1, h2]

lemma process_user_commit_ok_compare (w : World) (programs : List Program)
    (cid : String) (u : User) (evs evs2 : List Event) (recs : List String)
    (h : (process_user w true programs cid u evs recs).ok = true) :
    process_user w false programs cid u evs2 recs =
      ⟨evs2, (process_user w true programs cid u evs recs).records, true⟩ := by
  cases h1 : unpack3 (get_course_run_to_suggest (w.progress u programs) cid) with
  | error e => simp [process_user, h1] at h
  | ok t =>
    obtain ⟨sp, scr, sc⟩ := t
    cases h2 : get_program programs sp with
    | none => simp [process_user, h1, h2] at h
    | some sprog =>
      cases h3 : emit_event w u sprog scr sc (get_course_run sprog cid) with
      | error e => simp [process_user, h1, h2, h3] at h
      | ok ev => simp [process_user, h1, h2, h3]

lemma process_users_no_commit_events (w : World) (programs : List Program)
    (cid : String) :
    ∀ (us : List User) (evs : List Event) (recs : List String),
      (process_users w false programs cid us evs recs).events = evs := by
  intro us
  induction us with
  | nil => intro evs recs; rfl
  | cons u tl ih =>
    intro evs recs
    simp only [process_users]
    have hev := process_user_no_commit_events w programs cid u evs recs
    cases hok : (process_user w false programs cid u evs recs).ok with
    | true => rw [if_pos rfl, ih, hev]
    | false => rw [if_neg (by simp)]; exact hev

lemma process_users_commit_ok_compare (w : World) (programs : List Program)
    (cid : String) :
    ∀ (us : List User) (evs evs2 : List Event) (recs : List String),
      (process_users w true programs cid us evs recs).ok = true →
      process_users w false programs cid us evs2 recs =
        ⟨evs2, (process_users w true programs cid us evs recs).records, true⟩ := by
  intro us
  induction us with
  | nil => intro evs evs2 recs h; rfl
  | cons u tl ih =>
    intro evs evs2 recs h
    simp only [process_users] at h ⊢
    cases hok : (process_user w true programs cid u evs recs).ok with
    | false =>
      rw [hok] at h
      rw [if_neg (by simp)] at h
      rw [hok] at h
      simp at h
    | true =>
      rw [hok, if_pos rfl] at h
      have hcmp := process_user_commit_ok_compare w programs cid u evs evs2 recs hok
      rw [hcmp]
      simp [ih _ evs2 _ h]

lemma process_courses_no_commit_events (w : World) :
    ∀ (cs : List (String × List User)) (evs : List Event) (recs : List String),
      (process_courses w false cs evs recs).events = evs := by
  intro cs
  induction cs with
  | nil => intro evs recs; rfl
  | cons hd tl ih =>
    intro evs recs
    obtain ⟨cid, users⟩ := hd
    simp only [process_courses]
    cases hemp : (sort_programs (w.programs_by_course cid)).isEmpty with
    | true => rw [if_pos rfl]; exact ih evs recs
    | false =>
      rw [if_neg (by simp)]
      have hev := process_users_no_commit_events w
        (sort_programs (w.programs_by_course cid)) cid users evs recs
      cases hok : (process_users w false
          (sort_programs (w.programs_by_course cid)) cid users evs recs).ok with
      | true => rw [if_pos rfl, ih, hev]
      | false => rw [if_neg (by simp)]; exact hev

lemma process_courses_commit_ok_compare (w : World) :
    ∀ (cs : List (String × List User)) (evs evs2 : List Event)
      (recs : List String),
      (process_courses w true cs evs recs).ok = true →
      process_courses w false cs evs2 recs =
        ⟨evs2, (process_courses w true cs evs recs).records, true⟩ := by
  intro cs
  induction cs with
  | nil => intro evs evs2 recs h; rfl
  | cons hd tl ih =>
    intro evs evs2 recs h
    obtain ⟨cid, users⟩ := hd
    simp only [process_courses] at h ⊢
    cases hemp : (sort_programs (w.programs_by_course cid)).isEmpty with
    | true =>
      rw [hemp, if_pos rfl] at h
      rw [if_pos rfl]
      exact ih evs evs2 recs h
    | false =>
      rw [hemp, if_neg (by simp)] at h
      rw [if_neg (by simp)]
      cases hok : (process_users w true
          (sort_programs (w.programs_by_course cid)) cid users evs recs).ok with
      | false =>
        rw [hok] at h
        rw [if_neg (by simp)] at h
        rw [hok] at h
        simp at h
      | true =>
        rw [hok, if_pos rfl] at h
        have hcmp := process_users_commit_ok_compare w
          (sort_programs (w.programs_by_course cid)) cid users evs evs2 recs hok
        rw [hcmp]
        simp [ih _ evs2 _ h]

/-- C5: a `--no-commit` run sends nothing to the event sink, and — as
long as the committing run completes without an uncaught exception —
accumulates exactly the audit records of the committing run and
completes as well. -/
theorem no_commit_suppresses_events (w : World) :
    (handle w true).events = [] ∧
    ((handle w false).ok = true →
      (handle w true).records = (handle w false).records ∧
      (handle w true).ok = true) := by
  constructor
  · exact process_courses_no_commit_events w w.course_to_users [] []
  · intro h
    have hcmp := process_courses_commit_ok_compare w w.course_to_users [] [] [] h
    constructor
    · show (process_courses w false w.course_to_users [] []).records = _
      rw [hcmp]
      rfl
    · show (process_courses w false w.course_to_users [] []).ok = true
      rw [hcmp]

/-- A course holding the completed run `CS101`. -/
def c5_course1 : Course :=
  ⟨"C1", [⟨"CS101", "t1", "d1", "m1", true, true, some "i1", "published"⟩]⟩

/-- The not-started course holding `eligible_run`. -/
def c5_course2 : Course := ⟨"C2", [eligible_run]⟩

/-- A program holding both courses, so the committing run succeeds. -/
def c5_program : Program :=
  ⟨"p1", "XSeries", "XP", [c5_course1, c5_course2], none⟩

/-- Progress: `C1` completed, `C2` not started. -/
def c5_pp : ProgramProgress := ⟨"p1", [c5_course1], [], [c5_course2]⟩

/-- A world whose committing run emits exactly one event. -/
def c5_world : World :=
  ⟨[("CS101", [test_user])], fun _ => [c5_program], fun _ _ => [c5_pp],
   fun _ => [], "https://portal.example.com", "https://www.example.com/"⟩

/-- Closed instance of `no_commit_suppresses_events`. -/
theorem no_commit_suppresses_events_witness :
    (handle c5_world false).ok = true ∧
    (handle c5_world true).events = [] ∧
    (handle c5_world true).records = (handle c5_world false).records ∧
    (handle c5_world true).ok = true := by
  have hok : (handle c5_world false).ok = true := by
    rw [handle, show c5_world.course_to_users = [("CS101", [test_user])] from rfl,
      process_courses,
      show c5_world.programs_by_course "CS101" = [c5_program] from rfl,
      sort_programs_singleton]
    decide
  exact ⟨hok, (no_commit_suppresses_events c5_world).1,
    ((no_commit_suppresses_events c5_world).2 hok).1,
    ((no_commit_suppresses_events c5_world).2 hok).2⟩

lemma str_append_assoc (a b c : String) : (a ++ b) ++ c = a ++ (b ++ c) := by
  cases a with
  | mk la =>
    cases b with
    | mk lb =>
      cases c with
      | mk lc =>
        show String.mk ((la ++ lb) ++ lc) = String.mk (la ++ (lb ++ lc))
        rw [List.append_assoc]

lemma intercalate_three (a b c : String) :
    String.intercalate "/" [a, b, c] = a ++ "/" ++ b ++ "/" ++ c := rfl

/-- C6: the link placed in the emitted event is the resolved
recommended-course URL; for an enterprise learner with the portal
enabled (and a portal base of the plain `scheme://host` shape) it is
the portal base `/` slug `/course/` course key, and otherwise (no
enterprise record, or the portal flag off, with a marketing root of
the `scheme://host/` shape and a relative marketing URL) it is the
marketing root followed by the run's marketing URL. -/
theorem recommended_url_resolution
    (w : World) (user : User) (program : Program) (scr : CourseRun)
    (sc : Course) (ccr : CourseRun) (ev : Event) (ec : EnterpriseCustomer)
    (scheme host scheme2 host2 : String) :
    (emit_event w user program scr sc (some ccr) = .ok ev →
      ev.course_two_link = recommended_course_url w user scr sc) ∧
    (first_enterprise_customer (w.learner_data user) = some ec →
      ec.enable_learner_portal = true →
      w.enterprise_learner_portal_base_url = scheme ++ "://" ++ host →
      schemeSplit w.enterprise_learner_portal_base_url = some (scheme, host) →
      netlocSplit host = (host, "") →
      schemeSplit (String.intercalate "/" [ec.slug, "course", sc.key]) = none →
      headIsDoubleSlash (String.intercalate "/" [ec.slug, "course", sc.key]) = false →
      headIsSlash (String.intercalate "/" [ec.slug, "course", sc.key]) = false →
      String.intercalate "/" [ec.slug, "course", sc.key] ≠ "" →
      recommended_course_url w user scr sc =
        w.enterprise_learner_portal_base_url ++ "/" ++ ec.slug ++ "/course/" ++ sc.key) ∧
    ((first_enterprise_customer (w.learner_data user) = none ∨
        (first_enterprise_customer (w.learner_data user) = some ec ∧
          ec.enable_learner_portal = false)) →
      w.mktg_root = scheme2 ++ "://" ++ host2 ++ "/" →
      schemeSplit w.mktg_root = some (scheme2, host2 ++ "/") →
      netlocSplit (host2 ++ "/") = (host2, "/") →
      schemeSplit scr.marketing_url = none →
      headIsDoubleSlash scr.marketing_url = false →
      headIsSlash scr.marketing_url = false →
      scr.marketing_url ≠ "" →
      recommended_course_url w user scr sc = w.mktg_root ++ scr.marketing_url) := by
  refine ⟨?_, ?_, ?_⟩
  · intro h
    cases himg : scr.image with
    | none => simp [emit_event, himg] at h
    | some img =>
      simp only [emit_event, himg] at h
      obtain rfl : _ = ev := by
        simpa using h
      rfl
  · intro h1 h2 hb hbs hn hs1 hs2 hs3 hne
    simp only [recommended_course_url, h1, h2, if_pos]
    rw [py_urljoin, if_neg hne, hs1, hbs]
    simp only [hn, hs2, hs3, Bool.false_eq_true, if_false]
    rw [show dirname "" = "/" from rfl]
    rw [hb, intercalate_three]
    rw [show ("/course/" : String) = "/" ++ "course" ++ "/" from rfl]
    simp only [str_append_assoc]
  · intro h0 hroot hrs hn hs1 hs2 hs3 hne
    have hjoin : recommended_course_url w user scr sc =
        py_urljoin w.mktg_root scr.marketing_url := by
      rcases h0 with h0 | ⟨h0, hflag⟩
      · simp only [recommended_course_url, h0]
      · simp only [recommended_course_url, h0, hflag, Bool.false_eq_true,
          if_false]
    rw [hjoin, py_urljoin, if_neg hne, hs1, hrs]
    simp only [hn, hs2, hs3, Bool.false_eq_true, if_false]
    rw [show dirname "/" = "/" from rfl]
    rw [hroot]

/-- The enterprise customer for the `c6` worlds. -/
def c6_ec : EnterpriseCustomer := ⟨"acme", true⟩

/-- A world with an enterprise learner whose portal flag is on. -/
def c6_world : World :=
  ⟨[], fun _ => [], fun _ _ => [], fun _ => [⟨some c6_ec⟩],
   "https://portal.example.com", "https://www.example.com/"⟩

/-- A world with no enterprise learner data. -/
def c6_world2 : World :=
  ⟨[], fun _ => [], fun _ _ => [], fun _ => [],
   "https://portal.example.com", "https://www.example.com/"⟩

/-- The suggested course for the `c6` evaluations. -/
def c6_course : Course := ⟨"CS202", [eligible_run]⟩

/-- A placeholder event record. -/
def c6_event : Event := ⟨0, "", "", "", "", "", "", "", none⟩

/-- Closed instance of `recommended_url_resolution`: both URL shapes at
concrete inputs. -/
theorem recommended_url_resolution_witness :
    recommended_course_url c6_world test_user eligible_run c6_course =
      "https://portal.example.com" ++ "/" ++ "acme" ++ "/course/" ++ "CS202" ∧
    recommended_course_url c6_world2 test_user eligible_run c6_course =
      "https://www.example.com/" ++ "mkt" :=
  ⟨(recommended_url_resolution c6_world test_user c1_program eligible_run
      c6_course eligible_run c6_event c6_ec "https" "portal.example.com"
      "https" "www.example.com").2.1
      rfl rfl (by decide) (by decide) (by decide) (by decide) (by decide)
      (by decide) (by decide),
   (recommended_url_resolution c6_world2 test_user c1_program eligible_run
      c6_course eligible_run c6_event c6_ec "https" "portal.example.com"
      "https" "www.example.com").2.2
      (Or.inl rfl) (by decide) (by decide) (by decide) (by decide) (by decide)
      (by decide) (by decide)⟩

end NudgeEmail
